import Mathlib

/-!
Shallow embedding of the sqlsync storage core:
the WAL codec (src/lib/sqlsync/src/physical/sqlite_wal.rs) and the
virtual-file storage adapter (src/lib/sqlsync/src/storage.rs).
Bytes are modelled as natural numbers (valid byte buffers carry values
below 256); machine-integer wraparound is written explicitly as `% 2 ^ 32`.
Fallible or panicking operations return `Option` / a result pair,
`none` standing for a fatal assertion or panic.
-/

namespace SqlSync

/-- Fixed database page size (4096 bytes, as in the spec's examples). -/
def PAGESIZE : Nat := 4096

/-- Big-endian 4-byte encoding of a 32-bit value (mirrors u32::to_be_bytes). -/
def be32bytes (n : Nat) : List Nat :=
  [n / 2 ^ 24 % 256, n / 2 ^ 16 % 256, n / 2 ^ 8 % 256, n % 256]

/-- Big-endian 32-bit read at a byte offset (mirrors a BigEndian u32 field read). -/
def be32At (l : List Nat) (off : Nat) : Nat :=
  l.getD off 0 * 2 ^ 24 + l.getD (off + 1) 0 * 2 ^ 16 +
    l.getD (off + 2) 0 * 2 ^ 8 + l.getD (off + 3) 0

/-- Overwrite dst[off .. off + src.length) with src
(mirrors slice copy_from_slice; callers keep off + src.length ≤ dst.length). -/
def writeRange (dst : List Nat) (off : Nat) (src : List Nat) : List Nat :=
  dst.take off ++ src ++ dst.drop (off + src.length)

/-- Mirrors Vec::resize(n, 0): truncate or extend with zero bytes. -/
def listResize (l : List Nat) (n : Nat) : List Nat :=
  if n ≤ l.length then l.take n else l ++ List.replicate (n - l.length) 0

/-- A page: exactly PAGESIZE bytes (src page model; wrong size is a fatal error). -/
abbrev Page : Type := { l : List Nat // l.length = PAGESIZE }

/-- Maximum of two optional page indexes, none being least
(mirrors Option::max used in Storage::file_size). -/
def optMax : Option Nat → Option Nat → Option Nat
  | none, b => b
  | some a, none => some a
  | some a, some b => some (Nat.max a b)

/-- Modelled from the spec: SparsePages (src/lib/sqlsync/src/page.rs is not under
src/) — a mapping from page index to page, keys unique; modelled as an
association list where an upsert conses the new binding and drops old ones. -/
structure SparsePages where
  entries : List (Nat × Page)
deriving DecidableEq

/-- The empty sparse page map. -/
def SparsePages.empty : SparsePages := ⟨[]⟩

/-- Map lookup by page index. -/
def SparsePages.lookup (ps : SparsePages) (idx : Nat) : Option Page :=
  (ps.entries.find? (fun e => e.1 == idx)).map Prod.snd

/-- Modelled from the spec: SparsePages::write — unconditional upsert. -/
def SparsePages.write (ps : SparsePages) (idx : Nat) (p : Page) : SparsePages :=
  ⟨(idx, p) :: ps.entries.filter (fun e => e.1 != idx)⟩

/-- Modelled from the spec: SparsePages::num_pages — number of pages present. -/
def SparsePages.num_pages (ps : SparsePages) : Nat := ps.entries.length

/-- Modelled from the spec: SparsePages::max_page_idx — greatest key present, or none. -/
def SparsePages.max_page_idx (ps : SparsePages) : Option Nat :=
  ps.entries.foldr (fun e acc => optMax (some e.1) acc) none

/-- Modelled from the spec: SparsePages::read — returns 0 if the page is absent,
otherwise copies min(buf.length, PAGESIZE - off) bytes starting at byte offset
off within the page; result is (count, updated buffer). -/
def SparsePages.read (ps : SparsePages) (idx off : Nat) (buf : List Nat) :
    Nat × List Nat :=
  match ps.lookup idx with
  | none => (0, buf)
  | some p =>
    let n := min buf.length (PAGESIZE - off)
    (n, writeRange buf 0 ((p.val.drop off).take n))

/-! The WAL codec, from src/lib/sqlsync/src/physical/sqlite_wal.rs. -/

/-- WAL header size: 8 big-endian u32 fields (magic, format version, page size,
checkpoint sequence number, salt1, salt2, checksum1, checksum2). -/
def HEADER_SIZE : Nat := 32

/-- WAL frame header size: 6 big-endian u32 fields (page number, db pages after
commit, salt1, salt2, checksum1, checksum2). -/
def FRAME_HEADER_SIZE : Nat := 24

/-- Byte offset of salt1 inside the WAL header. -/
def SALT1_OFFSET : Nat := 16

/-- The WAL buffer: a growable byte vector. -/
structure SqliteWal where
  data : List Nat
deriving DecidableEq

/-- SqliteWal::len. -/
def SqliteWal.len (w : SqliteWal) : Nat := w.data.length

/-- SqliteWal::write — fails (buffer untouched) when offset is strictly past the
current length; otherwise zero-extends to offset + buf.length when needed, then
overwrites the destination range, returning the byte count written. -/
def SqliteWal.write (w : SqliteWal) (offset : Nat) (buf : List Nat) :
    SqliteWal × Except String Nat :=
  let currentLen := w.data.length
  let writeLen := buf.length
  let finish := offset + writeLen
  if offset > currentLen then
    (w, Except.error "write start is out of range")
  else
    let d := if finish > currentLen then listResize w.data finish else w.data
    (⟨writeRange d offset buf⟩, Except.ok writeLen)

/-- SqliteWal::read — copies the available overlap, returning the byte count. -/
def SqliteWal.read (w : SqliteWal) (offset : Nat) (buf : List Nat) :
    Nat × List Nat :=
  let remaining := w.data.length - offset
  let n := min remaining buf.length
  (n, writeRange buf 0 ((w.data.drop offset).take n))

/-- Checksum recurrence over a list of 32-bit words, consumed in pairs:
s1 accumulates the even word plus s2, s2 the odd word plus the updated s1,
all modulo 2^32. -/
def chksumWords : Nat → Nat → List Nat → Nat × Nat
  | s1, s2, w0 :: w1 :: ws =>
    let t1 := (s1 + w0 + s2) % 2 ^ 32
    let t2 := (s2 + w1 + t1) % 2 ^ 32
    chksumWords t1 t2 ws
  | s1, s2, _ => (s1, s2)

/-- Big-endian grouping of a byte list into 32-bit words. -/
def bytesToWordsBE : List Nat → List Nat
  | b0 :: b1 :: b2 :: b3 :: bs =>
    (((b0 * 256 + b1) * 256 + b2) * 256 + b3) :: bytesToWordsBE bs
  | _ => []

/-- Modelled from the spec: sqlite_chksum (src/lib/sqlsync/src/physical/sqlite_chksum.rs
is not under src/) — the two-word running checksum seeded by the previous value,
threaded across big-endian 32-bit words with forward accumulation. -/
def sqlite_chksum (s1 s2 : Nat) (bytes : List Nat) : Nat × Nat :=
  chksumWords s1 s2 (bytesToWordsBE bytes)

/-- The fresh WAL header built by SqliteWal::reset before the checksum fields are
filled in: magic, format version 3007000, page size, zero checkpoint sequence
number, the two salts, and zeroed checksum words. -/
def mkWalHeaderNoCksum (salt1 salt2 : Nat) : List Nat :=
  be32bytes 0x377f0683 ++ be32bytes 3007000 ++ be32bytes PAGESIZE ++
    be32bytes 0 ++ be32bytes salt1 ++ be32bytes salt2 ++ be32bytes 0 ++ be32bytes 0

/-- The complete fresh WAL header with its checksum fields filled in. -/
def mkWalHeader (salt1 salt2 ck1 ck2 : Nat) : List Nat :=
  be32bytes 0x377f0683 ++ be32bytes 3007000 ++ be32bytes PAGESIZE ++
    be32bytes 0 ++ be32bytes salt1 ++ be32bytes salt2 ++ be32bytes ck1 ++ be32bytes ck2

/-- SqliteWal::reset — reads the previous salt1, builds a fresh header whose salt1
is the previous value plus one (mod 2^32) and whose salt2 is a fresh random u32
(taken here as the parameter salt2), computes the checksum over the first 24
header bytes seeded at (0,0), then replaces the buffer with exactly that header.
Returns none when the buffer is shorter than a header (the field accesses and the
final fixed-size copy would panic). -/
def SqliteWal.reset (w : SqliteWal) (salt2 : Nat) : Option SqliteWal :=
  if w.data.length < HEADER_SIZE then none
  else
    let prevSalt1 := be32At w.data SALT1_OFFSET
    let hdr0 := mkWalHeaderNoCksum ((prevSalt1 + 1) % 2 ^ 32) (salt2 % 2 ^ 32)
    let ck := sqlite_chksum 0 0 (hdr0.take 24)
    some ⟨writeRange hdr0 24 (be32bytes ck.1 ++ be32bytes ck.2)⟩

/-- SqliteWal::chksum — the two checksum words stored in the header. -/
def SqliteWal.chksum (w : SqliteWal) : Nat × Nat :=
  (be32At w.data 24, be32At w.data 28)

/-- SqliteWal::salts — as in the source, which reads salt1 twice. -/
def SqliteWal.salts (w : SqliteWal) : Nat × Nat :=
  (be32At w.data SALT1_OFFSET, be32At w.data SALT1_OFFSET)

/-- Frame walk of SqliteWal::as_pages: starting just past the header, read each
frame's page number (big-endian u32 at the frame start) and its PAGESIZE payload
just past the frame header, inserting into the page map so that later frames
overwrite earlier ones; none models the panic on a truncated trailing frame. -/
def parseFrames (rem : List Nat) (acc : SparsePages) : Option SparsePages :=
  if hemp : rem = [] then some acc
  else if h : rem.length < FRAME_HEADER_SIZE + PAGESIZE then none
  else
    let pageNumber := be32At rem 0
    let pageData : Page :=
      ⟨(rem.drop FRAME_HEADER_SIZE).take PAGESIZE, by
        simp only [List.length_take, List.length_drop]
        unfold FRAME_HEADER_SIZE PAGESIZE at h ⊢
        omega⟩
    parseFrames (rem.drop (FRAME_HEADER_SIZE + PAGESIZE)) (acc.write pageNumber pageData)
termination_by rem.length
decreasing_by
  simp only [List.length_drop]
  have hne : rem.length ≠ 0 := fun hl => hemp (List.length_eq_zero.mp hl)
  unfold FRAME_HEADER_SIZE PAGESIZE
  omega

/-- SqliteWal::as_pages — fatal (none) if the buffer is shorter than one header;
otherwise decodes the frames after the header into a page map. -/
def SqliteWal.as_pages (w : SqliteWal) : Option SparsePages :=
  if w.data.length < HEADER_SIZE then none
  else parseFrames (w.data.drop HEADER_SIZE) SparsePages.empty

/-! The storage adapter, from src/lib/sqlsync/src/storage.rs.  The Journal
trait and LsnRange (src/lib/sqlsync/src/journal.rs, lsn.rs are not under src/)
are modelled from the spec. -/

/-- Modelled from the spec: LsnRange — an inclusive range [first, last] of log
sequence numbers, or empty. -/
inductive LsnRange
  | empty
  | nonempty (first last : Nat)
deriving DecidableEq

/-- Modelled from the spec: the journal — an append-only ordered sequence of
page-set entries; the entry at list position k has Lsn k. -/
structure MemJournal where
  entries : List SparsePages
deriving DecidableEq

/-- Modelled from the spec: Journal::range — the LsnRange of entries held. -/
def MemJournal.range (j : MemJournal) : LsnRange :=
  match j.entries.length with
  | 0 => LsnRange.empty
  | Nat.succ n => LsnRange.nonempty 0 n

/-- Modelled from the spec: Journal::append — stores the page set at the next Lsn. -/
def MemJournal.append (j : MemJournal) (ps : SparsePages) : MemJournal :=
  ⟨j.entries ++ [ps]⟩

/-- Modelled from the spec: Journal::scan_range — the journal entries whose Lsn
lies in the given range, in ascending Lsn order. -/
def MemJournal.scan_range (j : MemJournal) (r : LsnRange) : List SparsePages :=
  match r with
  | LsnRange.empty => []
  | LsnRange.nonempty a b => (j.entries.drop a).take (b + 1 - a)

/-- Byte offset of the file change counter in the sqlite header (page 0). -/
def FILE_CHANGE_COUNTER_OFFSET : Nat := 24

/-- The Storage adapter state: its journal, the cached visible Lsn range, the
pending page map, and the rolling file change counter. -/
structure Storage where
  journal : MemJournal
  visible_lsn_range : LsnRange
  pending : SparsePages
  file_change_counter : Nat
deriving DecidableEq

/-- Storage::new — caches the journal's range, starts with empty pending pages
and a zero file change counter. -/
def Storage.new (j : MemJournal) : Storage :=
  ⟨j, j.range, SparsePages.empty, 0⟩

/-- Storage::commit — when pending is non-empty, takes the pending map (leaving
it empty), appends it to the journal and refreshes the visible range; the
appendError flag injects a journal backend failure, in which case the error is
returned after the pending map has already been taken.  Result is the new state
and whether an error was returned. -/
def Storage.commit (s : Storage) (appendError : Bool) : Storage × Bool :=
  if s.pending.num_pages > 0 then
    let taken := s.pending
    let s1 : Storage := { s with pending := SparsePages.empty }
    if appendError then (s1, true)
    else
      let j := s1.journal.append taken
      ({ s1 with journal := j, visible_lsn_range := j.range }, false)
  else (s, false)

/-- Storage::revert — clears pending and refreshes the visible range. -/
def Storage.revert (s : Storage) : Storage :=
  { s with pending := SparsePages.empty, visible_lsn_range := s.journal.range }

/-- Storage::file_size — folds the max page index over pending and every
journal entry in the visible range, then converts to a byte size. -/
def Storage.file_size (s : Storage) : Nat :=
  let m := (s.journal.scan_range s.visible_lsn_range).foldl
    (fun acc ps => optMax acc ps.max_page_idx) s.pending.max_page_idx
  match m with
  | none => 0
  | some n => (n + 1) * PAGESIZE

/-- Storage::write — requires a whole-page buffer (none models the assertion
failure otherwise) and upserts it into the pending map at pos / PAGESIZE. -/
def Storage.write (s : Storage) (pos : Nat) (buf : List Nat) :
    Option (Storage × Nat) :=
  let page_idx := pos / PAGESIZE
  if h : buf.length = PAGESIZE then
    some ({ s with pending := s.pending.write page_idx ⟨buf, h⟩ }, buf.length)
  else none

/-- The read loop of Storage::read over the visible journal entries taken
newest first: keep scanning while the byte count is zero. -/
def scan_rev (entriesRev : List SparsePages) (idx off : Nat) (buf : List Nat) :
    Nat × List Nat :=
  match entriesRev with
  | [] => (0, buf)
  | e :: rest =>
    let r := SparsePages.read e idx off buf
    if r.1 = 0 then scan_rev rest idx off buf else r

/-- The file change counter defense of Storage::read: when the read is of page 0
and its byte range covers the 4-byte counter field at offset 24, flip the stored
counter and write its big-endian bytes into the buffer at the matching offset;
bufLen is the length of the caller's buffer. -/
def apply_counter (s : Storage) (page_idx page_offset bufLen : Nat)
    (b : List Nat) : List Nat × Storage :=
  if page_idx = 0 ∧ page_offset ≤ FILE_CHANGE_COUNTER_OFFSET ∧
      FILE_CHANGE_COUNTER_OFFSET + 4 ≤ page_offset + bufLen then
    let fo := FILE_CHANGE_COUNTER_OFFSET - page_offset
    let c := s.file_change_counter ^^^ 1
    (writeRange b fo (be32bytes c), { s with file_change_counter := c })
  else (b, s)

/-- Storage::read — resolves the page through pending then the visible journal
entries newest to oldest; a non-zero count must fill the buffer (none models
the assertion failure otherwise); a filled read then goes through the file
change counter defense.  Result is (byte count, buffer after the read, state
after the read). -/
def Storage.read (s : Storage) (pos : Nat) (buf : List Nat) :
    Option (Nat × List Nat × Storage) :=
  let page_idx := pos / PAGESIZE
  let page_offset := pos % PAGESIZE
  let r0 := s.pending.read page_idx page_offset buf
  let r := if r0.1 = 0
    then scan_rev (s.journal.scan_range s.visible_lsn_range).reverse page_idx page_offset buf
    else r0
  if r.1 = 0 then some (0, r.2, s)
  else if r.1 ≠ buf.length then none
  else some (buf.length, apply_counter s page_idx page_offset buf.length r.2)

/-! Specification-side definitions and concrete scenario states used by the
claims. -/

/-- The page whose PAGESIZE bytes all hold the value b. -/
def pageOf (b : Nat) : Page := ⟨List.replicate PAGESIZE b, by simp⟩

/-- First page version found scanning a list of page-version sources in order
(the claims scan the visible journal entries newest first). -/
def find_rev_hit : List SparsePages → Nat → Option Page
  | [], _ => none
  | e :: rest, idx =>
    match e.lookup idx with
    | some p => some p
    | none => find_rev_hit rest idx

/-- The resolution order stated by the spec: the pending page map first, then
the journal entries of the currently visible range from newest to oldest. -/
def resolve_page (s : Storage) (idx : Nat) : Option Page :=
  match s.pending.lookup idx with
  | some p => some p
  | none => find_rev_hit (s.journal.scan_range s.visible_lsn_range).reverse idx

/-- Apply a sequence of whole-page Storage writes (page index, page). -/
def applyWrites (s : Storage) (ws : List (Nat × Page)) : Storage :=
  ws.foldl (fun t f => ((t.write (f.1 * PAGESIZE) f.2.val).map Prod.fst).getD t) s

/-- Fold a list of (page index, page) pairs into a page map, later pairs
overwriting earlier ones. -/
def pagesOfList (ws : List (Nat × Page)) (m : SparsePages) : SparsePages :=
  ws.foldl (fun acc f => acc.write f.1 f.2) m

/-- Keys of a sparse page map. -/
def SparsePages.keys (ps : SparsePages) : List Nat := ps.entries.map Prod.fst

/-- Maximum page index over the visible journal entries, as the spec words it. -/
def visible_max (s : Storage) : Option Nat :=
  ((s.journal.scan_range s.visible_lsn_range).map SparsePages.max_page_idx).foldr optMax none

/-- Encoding of one WAL frame: 4-byte big-endian page number, the remaining 20
frame-header bytes (ignored by as_pages, zero here), then the page payload. -/
def encodeFrame (f : Nat × Page) : List Nat :=
  be32bytes f.1 ++ List.replicate 20 0 ++ f.2.val

/-- A WAL buffer of a header followed by the given frames. -/
def mkWal (hdr : List Nat) (frames : List (Nat × Page)) : SqliteWal :=
  ⟨hdr ++ (frames.map encodeFrame).flatten⟩

/-- Scenario: page 0 written with an all-zero page and committed. -/
def c1_state : Storage :=
  ((((Storage.new ⟨[]⟩).write 0 (pageOf 0).val).map Prod.fst).getD
    (Storage.new ⟨[]⟩)).commit false |>.1

/-- Scenario: a storage with one pending page (page 0) and nothing committed. -/
def c2_state : Storage :=
  ⟨⟨[]⟩, LsnRange.empty, SparsePages.empty.write 0 (pageOf 0), 0⟩

/-- Scenario: page 5 written and committed. -/
def c4_committed : Storage :=
  ((((Storage.new ⟨[]⟩).write (5 * PAGESIZE) (pageOf 5).val).map Prod.fst).getD
    (Storage.new ⟨[]⟩)).commit false |>.1

/-- Scenario: page 10 additionally written but not committed. -/
def c4_pending10 : Storage :=
  ((c4_committed.write (10 * PAGESIZE) (pageOf 10).val).map Prod.fst).getD c4_committed

/-- Scenario: the pending write of page 10 reverted. -/
def c4_reverted : Storage := c4_pending10.revert


/-! Helper lemmas: byte lists, big-endian round trips, buffer overwrites. -/

theorem be32bytes_length (n : Nat) : (be32bytes n).length = 4 := rfl

theorem be32_arith (n : Nat) (h : n < 2 ^ 32) :
    n / 2 ^ 24 % 256 * 2 ^ 24 + n / 2 ^ 16 % 256 * 2 ^ 16 +
      n / 2 ^ 8 % 256 * 2 ^ 8 + n % 256 = n := by
  omega

theorem be32At_here (n : Nat) (rest : List Nat) (h : n < 2 ^ 32) :
    be32At (be32bytes n ++ rest) 0 = n := by
  simp only [be32At, be32bytes, List.cons_append, List.nil_append, List.getD_cons_zero,
    List.getD_cons_succ]
  exact be32_arith n h

theorem be32At_shift (pre l : List Nat) (off : Nat) (hpre : pre.length = off) :
    be32At (pre ++ l) off = be32At l 0 := by
  subst hpre
  simp only [be32At]
  rw [List.getD_append_right _ _ _ _ (Nat.le_refl _),
    List.getD_append_right _ _ _ _ (Nat.le_add_right _ 1),
    List.getD_append_right _ _ _ _ (Nat.le_add_right _ 2),
    List.getD_append_right _ _ _ _ (Nat.le_add_right _ 3)]
  simp

theorem be32At_embedded (pre rest : List Nat) (off n : Nat)
    (hpre : pre.length = off) (h : n < 2 ^ 32) :
    be32At (pre ++ (be32bytes n ++ rest)) off = n := by
  rw [be32At_shift pre _ off hpre, be32At_here n rest h]

theorem writeRange_zero (dst src : List Nat) :
    writeRange dst 0 src = src ++ dst.drop src.length := by
  simp [writeRange]

theorem writeRange_zero_full (dst src : List Nat) (h : src.length = dst.length) :
    writeRange dst 0 src = src := by
  rw [writeRange_zero dst src, List.drop_eq_nil_of_le (le_of_eq h.symm),
    List.append_nil]

theorem writeRange_length (dst src : List Nat) (off : Nat)
    (h : off + src.length ≤ dst.length) :
    (writeRange dst off src).length = dst.length := by
  simp only [writeRange, List.length_append, List.length_take, List.length_drop]
  omega

theorem writeRange_take (dst src : List Nat) (off : Nat) (h : off ≤ dst.length) :
    (writeRange dst off src).take off = dst.take off := by
  have htk : (dst.take off).length = off := by simp; omega
  unfold writeRange
  rw [List.append_assoc, List.take_append_of_le_length (le_of_eq htk.symm),
    List.take_take, Nat.min_self]

theorem writeRange_slice (dst src : List Nat) (off : Nat)
    (h : off + src.length ≤ dst.length) :
    ((writeRange dst off src).drop off).take src.length = src := by
  have htk : (dst.take off).length = off := by simp; omega
  unfold writeRange
  rw [List.append_assoc, List.drop_left' htk, List.take_left' rfl]

theorem xor_one_mod_two (c : Nat) : (c ^^^ 1) % 2 ≠ c % 2 := by
  intro h
  have hb : (c ^^^ 1).testBit 0 = c.testBit 0 := by
    rw [Nat.testBit_zero, Nat.testBit_zero, h]
  rw [Nat.testBit_xor] at hb
  simp at hb

theorem xor_one_mod_256 (c : Nat) : (c ^^^ 1) % 256 ≠ c % 256 := by
  intro h
  exact xor_one_mod_two c (by
    have := congrArg (fun x => x % 2) h
    simpa [Nat.mod_mod_of_dvd _ (by norm_num : (2:Nat) ∣ 256)] using this)

theorem be32bytes_ne_xor_one (c : Nat) : be32bytes (c ^^^ 1) ≠ be32bytes c := by
  intro h
  have h4 := congrArg (fun l => l.getD 3 0) h
  simp only [be32bytes, List.getD_cons_succ, List.getD_cons_zero] at h4
  exact xor_one_mod_256 c h4

theorem xor_one_twice (c : Nat) : (c ^^^ 1) ^^^ 1 = c := by
  rw [Nat.xor_assoc]; simp

/-! Helper lemmas: sparse page maps. -/

theorem find_filter_ne (l : List (Nat × Page)) (i j : Nat) (hne : j ≠ i) :
    (l.filter (fun e => e.1 != i)).find? (fun e => e.1 == j) =
      l.find? (fun e => e.1 == j) := by
  induction l with
  | nil => rfl
  | cons a l ih =>
    by_cases hk : a.1 = i
    · have hj : (i == j) = false := by
        simp only [beq_eq_false_iff_ne, ne_eq]
        exact fun hc => hne hc.symm
      simp [List.filter_cons, hk, List.find?_cons, hj, ih]
    · have hf : (a.1 != i) = true := by simp [hk]
      rw [List.filter_cons, hf]
      simp only [if_true]
      rw [List.find?_cons, List.find?_cons]
      cases hj : (a.1 == j) with
      | true => rfl
      | false => exact ih

theorem lookup_write (ps : SparsePages) (i j : Nat) (p : Page) :
    (ps.write i p).lookup j = if j = i then some p else ps.lookup j := by
  by_cases hji : j = i
  · simp [SparsePages.write, SparsePages.lookup, List.find?_cons, hji]
  · have : (i == j) = false := by simp; exact fun hc => hji hc.symm
    simp [SparsePages.write, SparsePages.lookup, List.find?_cons, this, hji,
      find_filter_ne ps.entries i j hji]

theorem lookup_empty (j : Nat) : SparsePages.empty.lookup j = none := rfl

theorem keys_write_nodup (ps : SparsePages) (i : Nat) (p : Page)
    (h : ps.keys.Nodup) : (ps.write i p).keys.Nodup := by
  simp only [SparsePages.keys, SparsePages.write, List.map_cons, List.nodup_cons]
  constructor
  · intro hmem
    obtain ⟨e, he, hfe⟩ := List.mem_map.mp hmem
    have := List.of_mem_filter he
    simp [hfe] at this
  · exact List.Nodup.sublist (List.Sublist.map _ (List.filter_sublist _)) h

theorem num_pages_pos_of_lookup (ps : SparsePages) (i : Nat) (p : Page)
    (h : ps.lookup i = some p) : 0 < ps.num_pages := by
  rcases ps with ⟨entries⟩
  cases entries with
  | nil => simp [SparsePages.lookup] at h
  | cons a l => simp [SparsePages.num_pages]

theorem sparse_read_none (ps : SparsePages) (idx off : Nat) (buf : List Nat)
    (h : ps.lookup idx = none) : ps.read idx off buf = (0, buf) := by
  simp [SparsePages.read, h]

theorem sparse_read_hit (ps : SparsePages) (idx off : Nat) (buf : List Nat)
    (p : Page) (h : ps.lookup idx = some p) (hfit : off + buf.length ≤ PAGESIZE) :
    ps.read idx off buf =
      (buf.length, writeRange buf 0 ((p.val.drop off).take buf.length)) := by
  have hmin : min buf.length (PAGESIZE - off) = buf.length := by omega
  simp [SparsePages.read, h, hmin]

theorem pagesOfList_lookup (ws : List (Nat × Page)) :
    ∀ (m : SparsePages) (j : Nat),
      (pagesOfList ws m).lookup j =
        match ws.reverse.find? (fun f => f.1 == j) with
        | some f => some f.2
        | none => m.lookup j := by
  induction ws with
  | nil => intro m j; rfl
  | cons f ws ih =>
    intro m j
    have hstep : pagesOfList (f :: ws) m = pagesOfList ws (m.write f.1 f.2) := rfl
    rw [hstep, ih]
    rw [List.reverse_cons, List.find?_append]
    cases hfind : ws.reverse.find? (fun g => g.1 == j) with
    | some g => simp [Option.or]
    | none =>
      simp only [Option.or_none]
      rw [lookup_write]
      by_cases hj : j = f.1
      · simp [List.find?_cons, hj]
      · have : (f.1 == j) = false := by simp; exact fun hc => hj hc.symm
        simp [List.find?_cons, this, hj]

theorem pagesOfList_keys_nodup (ws : List (Nat × Page)) :
    ∀ (m : SparsePages), m.keys.Nodup → (pagesOfList ws m).keys.Nodup := by
  induction ws with
  | nil => intro m h; exact h
  | cons f ws ih => intro m h; exact ih _ (keys_write_nodup m f.1 f.2 h)

theorem optMax_none_right (a : Option Nat) : optMax a none = a := by
  cases a <;> rfl

theorem optMax_assoc (a b c : Option Nat) :
    optMax (optMax a b) c = optMax a (optMax b c) := by
  cases a <;> cases b <;> cases c <;> simp [optMax, Nat.max_assoc]

theorem foldl_optMax_eq (l : List SparsePages) :
    ∀ (init : Option Nat),
      l.foldl (fun acc ps => optMax acc ps.max_page_idx) init =
        optMax init ((l.map SparsePages.max_page_idx).foldr optMax none) := by
  induction l with
  | nil => intro init; simp [optMax_none_right]
  | cons e l ih =>
    intro init
    simp only [List.foldl_cons, List.map_cons, List.foldr_cons]
    rw [ih, optMax_assoc]

/-! Helper lemmas: the read resolution path, commit, revert, applied writes. -/

theorem scan_rev_none (es : List SparsePages) (idx off : Nat) (buf : List Nat)
    (h : find_rev_hit es idx = none) : scan_rev es idx off buf = (0, buf) := by
  induction es with
  | nil => rfl
  | cons e rest ih =>
    unfold find_rev_hit at h
    cases hl : e.lookup idx with
    | some p => rw [hl] at h; exact absurd h (by simp)
    | none =>
      rw [hl] at h
      unfold scan_rev
      rw [sparse_read_none e idx off buf hl]
      simpa using ih h

theorem scan_rev_hit (es : List SparsePages) (idx off : Nat) (buf : List Nat)
    (p : Page) (h : find_rev_hit es idx = some p) (hlen : 1 ≤ buf.length)
    (hfit : off + buf.length ≤ PAGESIZE) :
    scan_rev es idx off buf =
      (buf.length, writeRange buf 0 ((p.val.drop off).take buf.length)) := by
  induction es with
  | nil => exact absurd h (by simp [find_rev_hit])
  | cons e rest ih =>
    unfold find_rev_hit at h
    cases hl : e.lookup idx with
    | some q =>
      rw [hl] at h
      have hq : q = p := by simpa using h
      subst hq
      unfold scan_rev
      rw [sparse_read_hit e idx off buf q hl hfit]
      have hne : ¬(buf.length = 0) := by omega
      simp [hne]
    | none =>
      rw [hl] at h
      unfold scan_rev
      rw [sparse_read_none e idx off buf hl]
      simpa using ih h

theorem read_unresolved (s : Storage) (pos : Nat) (buf : List Nat)
    (hres : resolve_page s (pos / PAGESIZE) = none) :
    s.read pos buf = some (0, buf, s) := by
  unfold resolve_page at hres
  cases hp : s.pending.lookup (pos / PAGESIZE) with
  | some q => rw [hp] at hres; exact absurd hres (by simp)
  | none =>
    rw [hp] at hres
    simp only [Storage.read]
    rw [sparse_read_none _ _ _ _ hp]
    rw [scan_rev_none _ _ _ _ hres]
    simp

theorem read_resolved (s : Storage) (pos : Nat) (buf : List Nat) (p : Page)
    (hres : resolve_page s (pos / PAGESIZE) = some p)
    (hlen : 1 ≤ buf.length) (hfit : pos % PAGESIZE + buf.length ≤ PAGESIZE) :
    s.read pos buf = some (buf.length,
      apply_counter s (pos / PAGESIZE) (pos % PAGESIZE) buf.length
        (writeRange buf 0 ((p.val.drop (pos % PAGESIZE)).take buf.length))) := by
  have hne : ¬(buf.length = 0) := by omega
  unfold resolve_page at hres
  cases hp : s.pending.lookup (pos / PAGESIZE) with
  | some q =>
    rw [hp] at hres
    have hq : q = p := by simpa using hres
    subst hq
    simp only [Storage.read]
    rw [sparse_read_hit _ _ _ _ q hp hfit]
    simp [hne]
  | none =>
    rw [hp] at hres
    simp only [Storage.read]
    rw [sparse_read_none _ _ _ _ hp]
    rw [scan_rev_hit _ _ _ _ p hres hlen hfit]
    simp [hne]

theorem read_frame (s : Storage) (pos : Nat) (buf : List Nat) (n : Nat)
    (b : List Nat) (s2 : Storage) (h : s.read pos buf = some (n, b, s2)) :
    s2.journal = s.journal ∧ s2.visible_lsn_range = s.visible_lsn_range ∧
      s2.pending = s.pending := by
  simp only [Storage.read] at h
  split at h <;> split at h <;> try split at h
  all_goals try exact Option.noConfusion h
  all_goals first
    | (obtain ⟨h1, h2, h3⟩ := by simpa using h
       rw [← h3]
       exact ⟨rfl, rfl, rfl⟩)
    | (obtain ⟨h1, h2⟩ := by simpa using h
       unfold apply_counter at h2
       split at h2 <;>
         (obtain ⟨h3, h4⟩ := by simpa using h2
          rw [← h4]
          exact ⟨rfl, rfl, rfl⟩))

theorem commit_empty (s : Storage) (err : Bool) (h : s.pending.num_pages = 0) :
    s.commit err = (s, false) := by
  simp [Storage.commit, h]

theorem commit_err (s : Storage) (h : 0 < s.pending.num_pages) :
    s.commit true = ({ s with pending := SparsePages.empty }, true) := by
  simp [Storage.commit, h]

theorem commit_ok (s : Storage) (h : 0 < s.pending.num_pages) :
    s.commit false = ({ s with
      pending := SparsePages.empty
      journal := s.journal.append s.pending
      visible_lsn_range := (s.journal.append s.pending).range }, false) := by
  simp [Storage.commit, h]

theorem range_append (l : List SparsePages) (P : SparsePages) :
    MemJournal.range ⟨l ++ [P]⟩ = LsnRange.nonempty 0 l.length := by
  unfold MemJournal.range
  rw [List.length_append]
  rfl

theorem scan_range_range (l : List SparsePages) :
    MemJournal.scan_range ⟨l⟩ (MemJournal.range ⟨l⟩) = l := by
  cases l with
  | nil => rfl
  | cons a l =>
    unfold MemJournal.range MemJournal.scan_range
    simp only [List.length_cons]
    rw [List.drop_zero]
    exact List.take_of_length_le (by simp)

theorem write_step (s : Storage) (i : Nat) (p : Page) :
    s.write (i * PAGESIZE) p.val = some ({ s with pending := s.pending.write i p }, PAGESIZE) := by
  unfold Storage.write
  rw [dif_pos p.property]
  rw [Nat.mul_div_cancel i (by norm_num [PAGESIZE] : 0 < PAGESIZE)]
  rw [p.property]

theorem applyWrites_eq (ws : List (Nat × Page)) : ∀ (s : Storage),
    applyWrites s ws = { s with pending := pagesOfList ws s.pending } := by
  induction ws with
  | nil => intro s; rfl
  | cons f ws ih =>
    intro s
    have hstep : applyWrites s (f :: ws) =
        applyWrites { s with pending := s.pending.write f.1 f.2 } ws := by
      unfold applyWrites
      rw [List.foldl_cons, write_step s f.1 f.2]
      rfl
    rw [hstep, ih]
    rfl

/-! Helper lemmas: checksum bounds and the reset header normal form. -/

theorem chksumWords_lt : ∀ (ws : List Nat) (s1 s2 : Nat), s1 < 2 ^ 32 → s2 < 2 ^ 32 →
    (chksumWords s1 s2 ws).1 < 2 ^ 32 ∧ (chksumWords s1 s2 ws).2 < 2 ^ 32
  | [], s1, s2, h1, h2 => by
    simp only [chksumWords]
    exact ⟨h1, h2⟩
  | [w], s1, s2, h1, h2 => by
    simp only [chksumWords]
    exact ⟨h1, h2⟩
  | w0 :: w1 :: ws, s1, s2, h1, h2 => by
    simp only [chksumWords]
    exact chksumWords_lt ws _ _ (Nat.mod_lt _ (by norm_num)) (Nat.mod_lt _ (by norm_num))

theorem sqlite_chksum_lt (bytes : List Nat) :
    (sqlite_chksum 0 0 bytes).1 < 2 ^ 32 ∧ (sqlite_chksum 0 0 bytes).2 < 2 ^ 32 :=
  chksumWords_lt _ 0 0 (by norm_num) (by norm_num)

set_option maxRecDepth 16384 in
theorem mkWalHeader_length (s1 s2 c1 c2 : Nat) :
    (mkWalHeader s1 s2 c1 c2).length = HEADER_SIZE := rfl

set_option maxRecDepth 16384 in
theorem be32At_mkWalHeader_12 (s1 s2 c1 c2 : Nat) :
    be32At (mkWalHeader s1 s2 c1 c2) 12 = 0 := by
  have h0 : (mkWalHeader s1 s2 c1 c2).getD 12 0 = 0 := rfl
  have h1 : (mkWalHeader s1 s2 c1 c2).getD (12 + 1) 0 = 0 := rfl
  have h2 : (mkWalHeader s1 s2 c1 c2).getD (12 + 2) 0 = 0 := rfl
  have h3 : (mkWalHeader s1 s2 c1 c2).getD (12 + 3) 0 = 0 := rfl
  simp only [be32At]
  rw [h0, h1, h2, h3]
  norm_num

set_option maxRecDepth 16384 in
theorem be32At_mkWalHeader_16 (s1 s2 c1 c2 : Nat) (h : s1 < 2 ^ 32) :
    be32At (mkWalHeader s1 s2 c1 c2) SALT1_OFFSET = s1 := by
  have h0 : (mkWalHeader s1 s2 c1 c2).getD 16 0 = s1 / 2 ^ 24 % 256 := rfl
  have h1 : (mkWalHeader s1 s2 c1 c2).getD (16 + 1) 0 = s1 / 2 ^ 16 % 256 := rfl
  have h2 : (mkWalHeader s1 s2 c1 c2).getD (16 + 2) 0 = s1 / 2 ^ 8 % 256 := rfl
  have h3 : (mkWalHeader s1 s2 c1 c2).getD (16 + 3) 0 = s1 % 256 := rfl
  have he : be32At (mkWalHeader s1 s2 c1 c2) SALT1_OFFSET =
      s1 / 2 ^ 24 % 256 * 2 ^ 24 + s1 / 2 ^ 16 % 256 * 2 ^ 16 +
        s1 / 2 ^ 8 % 256 * 2 ^ 8 + s1 % 256 := by
    simp only [be32At, SALT1_OFFSET]
    rw [h0, h1, h2, h3]
  rw [he]
  exact be32_arith s1 h

set_option maxRecDepth 16384 in
theorem be32At_mkWalHeader_24 (s1 s2 c1 c2 : Nat) (h : c1 < 2 ^ 32) :
    be32At (mkWalHeader s1 s2 c1 c2) 24 = c1 := by
  have h0 : (mkWalHeader s1 s2 c1 c2).getD 24 0 = c1 / 2 ^ 24 % 256 := rfl
  have h1 : (mkWalHeader s1 s2 c1 c2).getD (24 + 1) 0 = c1 / 2 ^ 16 % 256 := rfl
  have h2 : (mkWalHeader s1 s2 c1 c2).getD (24 + 2) 0 = c1 / 2 ^ 8 % 256 := rfl
  have h3 : (mkWalHeader s1 s2 c1 c2).getD (24 + 3) 0 = c1 % 256 := rfl
  have he : be32At (mkWalHeader s1 s2 c1 c2) 24 =
      c1 / 2 ^ 24 % 256 * 2 ^ 24 + c1 / 2 ^ 16 % 256 * 2 ^ 16 +
        c1 / 2 ^ 8 % 256 * 2 ^ 8 + c1 % 256 := by
    simp only [be32At]
    rw [h0, h1, h2, h3]
  rw [he]
  exact be32_arith c1 h

set_option maxRecDepth 16384 in
theorem be32At_mkWalHeader_28 (s1 s2 c1 c2 : Nat) (h : c2 < 2 ^ 32) :
    be32At (mkWalHeader s1 s2 c1 c2) 28 = c2 := by
  have h0 : (mkWalHeader s1 s2 c1 c2).getD 28 0 = c2 / 2 ^ 24 % 256 := rfl
  have h1 : (mkWalHeader s1 s2 c1 c2).getD (28 + 1) 0 = c2 / 2 ^ 16 % 256 := rfl
  have h2 : (mkWalHeader s1 s2 c1 c2).getD (28 + 2) 0 = c2 / 2 ^ 8 % 256 := rfl
  have h3 : (mkWalHeader s1 s2 c1 c2).getD (28 + 3) 0 = c2 % 256 := rfl
  have he : be32At (mkWalHeader s1 s2 c1 c2) 28 =
      c2 / 2 ^ 24 % 256 * 2 ^ 24 + c2 / 2 ^ 16 % 256 * 2 ^ 16 +
        c2 / 2 ^ 8 % 256 * 2 ^ 8 + c2 % 256 := by
    simp only [be32At]
    rw [h0, h1, h2, h3]
  rw [he]
  exact be32_arith c2 h

set_option maxRecDepth 16384 in
theorem mkWalHeader_take24 (s1 s2 c1 c2 : Nat) :
    (mkWalHeader s1 s2 c1 c2).take 24 = (mkWalHeaderNoCksum s1 s2).take 24 := rfl

set_option maxRecDepth 16384 in
theorem reset_spec (w : SqliteWal) (salt2 : Nat) (h : HEADER_SIZE ≤ w.data.length) :
    ∃ w1, w.reset salt2 = some w1 ∧
      w1.data.length = HEADER_SIZE ∧
      be32At w1.data SALT1_OFFSET = (be32At w.data SALT1_OFFSET + 1) % 2 ^ 32 ∧
      be32At w1.data 12 = 0 ∧
      w1.chksum = sqlite_chksum 0 0 (w1.data.take 24) := by
  have hng : ¬(w.data.length < HEADER_SIZE) := not_lt.mpr h
  have hs1 : (be32At w.data SALT1_OFFSET + 1) % 2 ^ 32 < 2 ^ 32 :=
    Nat.mod_lt _ (by norm_num)
  have hck := sqlite_chksum_lt
    ((mkWalHeaderNoCksum ((be32At w.data SALT1_OFFSET + 1) % 2 ^ 32) (salt2 % 2 ^ 32)).take 24)
  refine ⟨⟨mkWalHeader ((be32At w.data SALT1_OFFSET + 1) % 2 ^ 32) (salt2 % 2 ^ 32)
      (sqlite_chksum 0 0 ((mkWalHeaderNoCksum ((be32At w.data SALT1_OFFSET + 1) % 2 ^ 32)
        (salt2 % 2 ^ 32)).take 24)).1
      (sqlite_chksum 0 0 ((mkWalHeaderNoCksum ((be32At w.data SALT1_OFFSET + 1) % 2 ^ 32)
        (salt2 % 2 ^ 32)).take 24)).2⟩, ?_, ?_, ?_, ?_, ?_⟩
  · unfold SqliteWal.reset
    rw [if_neg hng]
    rfl
  · exact mkWalHeader_length _ _ _ _
  · exact be32At_mkWalHeader_16 _ _ _ _ hs1
  · exact be32At_mkWalHeader_12 _ _ _ _
  · show (be32At (mkWalHeader _ _ _ _) 24, be32At (mkWalHeader _ _ _ _) 28) = _
    rw [be32At_mkWalHeader_24 _ _ _ _ hck.1, be32At_mkWalHeader_28 _ _ _ _ hck.2]
    rfl

/-- C5: SqliteWal::write(offset, bytes) errors exactly when offset is strictly
beyond the current buffer length, leaving the buffer unchanged; otherwise it
succeeds, zero-extending when offset + bytes.length exceeds the length and then
overwriting the range [offset, offset + bytes.length) with the given bytes,
returning bytes.length. -/
theorem claim_C5 (w : SqliteWal) (offset : Nat) (buf : List Nat) :
    (w.data.length < offset →
      w.write offset buf = (w, Except.error "write start is out of range")) ∧
    (offset ≤ w.data.length →
      w.write offset buf =
        (⟨w.data.take offset ++ buf ++ w.data.drop (offset + buf.length)⟩,
          Except.ok buf.length)) := by
  constructor
  · intro hgt
    simp [SqliteWal.write, hgt]
  · intro hle
    have hng : ¬(offset > w.data.length) := not_lt.mpr hle
    simp only [SqliteWal.write, if_neg hng]
    by_cases hf : offset + buf.length > w.data.length
    · rw [if_pos hf]
      have hresize : listResize w.data (offset + buf.length) =
          w.data ++ List.replicate (offset + buf.length - w.data.length) 0 := by
        unfold listResize
        rw [if_neg (by omega)]
      rw [hresize]
      unfold writeRange
      rw [List.take_append_of_le_length hle]
      rw [List.drop_eq_nil_of_le (by simp; omega),
        List.drop_eq_nil_of_le (by omega)]
    · rw [if_neg hf]
      rfl

/-- Witness for C5: both branches at concrete inputs. -/
theorem claim_C5_witness :
    ((SqliteWal.mk [1, 2, 3]).data.length < 5 ∧
      (SqliteWal.mk [1, 2, 3]).write 5 [9] =
        (⟨[1, 2, 3]⟩, Except.error "write start is out of range")) ∧
    (2 ≤ (SqliteWal.mk [1, 2, 3]).data.length ∧
      (SqliteWal.mk [1, 2, 3]).write 2 [7, 8, 9] =
        (⟨([1, 2, 3] : List Nat).take 2 ++ [7, 8, 9] ++
          ([1, 2, 3] : List Nat).drop (2 + ([7, 8, 9] : List Nat).length)⟩,
          Except.ok ([7, 8, 9] : List Nat).length)) :=
  ⟨⟨by decide, (claim_C5 ⟨[1, 2, 3]⟩ 5 [9]).1 (by decide)⟩,
    ⟨by decide, (claim_C5 ⟨[1, 2, 3]⟩ 2 [7, 8, 9]).2 (by decide)⟩⟩

/-- C7: after reset() on a WAL holding at least a header, the buffer is exactly
header-sized, the new first salt is the previous first salt plus 1 (mod 2^32),
the checkpoint sequence number is zeroed, and the stored checksum words are the
running checksum of the first 24 header bytes seeded at (0,0); resetting twice
gives header-sized buffers whose first salts again differ by exactly 1. -/
theorem claim_C7 (w : SqliteWal) (salt2 : Nat) (h : HEADER_SIZE ≤ w.data.length) :
    ∃ w1, w.reset salt2 = some w1 ∧
      w1.data.length = HEADER_SIZE ∧
      be32At w1.data SALT1_OFFSET = (be32At w.data SALT1_OFFSET + 1) % 2 ^ 32 ∧
      be32At w1.data 12 = 0 ∧
      w1.chksum = sqlite_chksum 0 0 (w1.data.take 24) ∧
      ∀ salt2b, ∃ w2, w1.reset salt2b = some w2 ∧
        w2.data.length = HEADER_SIZE ∧
        be32At w2.data SALT1_OFFSET = (be32At w1.data SALT1_OFFSET + 1) % 2 ^ 32 := by
  obtain ⟨w1, hr, hlen, hsalt, hck0, hcks⟩ := reset_spec w salt2 h
  refine ⟨w1, hr, hlen, hsalt, hck0, hcks, ?_⟩
  intro salt2b
  obtain ⟨w2, hr2, hlen2, hsalt2, _, _⟩ := reset_spec w1 salt2b (le_of_eq hlen.symm)
  exact ⟨w2, hr2, hlen2, hsalt2⟩

/-- Witness for C7 at a 32-byte zero WAL buffer. -/
theorem claim_C7_witness :
    HEADER_SIZE ≤ (SqliteWal.mk (List.replicate 32 0)).data.length ∧
    (∃ w1, (SqliteWal.mk (List.replicate 32 0)).reset 7 = some w1 ∧
      w1.data.length = HEADER_SIZE ∧
      be32At w1.data SALT1_OFFSET =
        (be32At (SqliteWal.mk (List.replicate 32 0)).data SALT1_OFFSET + 1) % 2 ^ 32 ∧
      be32At w1.data 12 = 0 ∧
      w1.chksum = sqlite_chksum 0 0 (w1.data.take 24) ∧
      ∀ salt2b, ∃ w2, w1.reset salt2b = some w2 ∧
        w2.data.length = HEADER_SIZE ∧
        be32At w2.data SALT1_OFFSET = (be32At w1.data SALT1_OFFSET + 1) % 2 ^ 32) :=
  ⟨by decide, claim_C7 ⟨List.replicate 32 0⟩ 7 (by decide)⟩

/-! Helper lemmas: WAL frame decoding. -/

theorem encodeFrame_length (f : Nat × Page) :
    (encodeFrame f).length = FRAME_HEADER_SIZE + PAGESIZE := by
  simp [encodeFrame, be32bytes, f.2.property, FRAME_HEADER_SIZE, PAGESIZE]

theorem write_page_congr (acc : SparsePages) (n n2 : Nat) (x : List Nat)
    (hx : x.length = PAGESIZE) (p : Page) (hn : n = n2) (hv : x = p.val) :
    acc.write n ⟨x, hx⟩ = acc.write n2 p := by
  subst hn
  exact congrArg (acc.write n) (Subtype.ext hv)

theorem parseFrames_cons (f : Nat × Page) (rest : List Nat) (acc : SparsePages)
    (hn : f.1 < 2 ^ 32) :
    parseFrames (encodeFrame f ++ rest) acc =
      parseFrames rest (acc.write f.1 f.2) := by
  have hne : encodeFrame f ++ rest ≠ [] := by
    intro h
    have hl := congrArg List.length h
    rw [List.length_append, encodeFrame_length] at hl
    simp [FRAME_HEADER_SIZE, PAGESIZE] at hl
  have hlen : ¬((encodeFrame f ++ rest).length < FRAME_HEADER_SIZE + PAGESIZE) := by
    rw [List.length_append, encodeFrame_length]
    omega
  have hnum : be32At (encodeFrame f ++ rest) 0 = f.1 := by
    have he : encodeFrame f ++ rest =
        be32bytes f.1 ++ (List.replicate 20 0 ++ (f.2.val ++ rest)) := by
      simp [encodeFrame, List.append_assoc]
    rw [he]
    exact be32At_here f.1 _ hn
  have hpd : ((encodeFrame f ++ rest).drop FRAME_HEADER_SIZE).take PAGESIZE = f.2.val := by
    have h24 : (be32bytes f.1 ++ List.replicate 20 0).length = FRAME_HEADER_SIZE := by
      simp [be32bytes, FRAME_HEADER_SIZE]
    have he : encodeFrame f ++ rest =
        (be32bytes f.1 ++ List.replicate 20 0) ++ (f.2.val ++ rest) := by
      simp [encodeFrame, List.append_assoc]
    rw [he, List.drop_left' h24, List.take_left' f.2.property]
  have hdr : (encodeFrame f ++ rest).drop (FRAME_HEADER_SIZE + PAGESIZE) = rest :=
    List.drop_left' (encodeFrame_length f)
  rw [parseFrames]
  rw [dif_neg hne, dif_neg hlen, hdr]
  exact congrArg (parseFrames rest)
    (write_page_congr acc _ f.1 _ _ f.2 hnum hpd)

theorem parseFrames_encode (frames : List (Nat × Page)) :
    ∀ acc, (∀ f ∈ frames, f.1 < 2 ^ 32) →
      parseFrames ((frames.map encodeFrame).flatten) acc =
        some (pagesOfList frames acc) := by
  induction frames with
  | nil =>
    intro acc h
    show parseFrames [] acc = some acc
    rw [parseFrames]
    rfl
  | cons f frames ih =>
    intro acc h
    have hflat : ((f :: frames).map encodeFrame).flatten =
        encodeFrame f ++ (frames.map encodeFrame).flatten := by
      simp
    rw [hflat, parseFrames_cons f _ acc (h f (by simp))]
    exact ih _ (fun g hg => h g (by simp [hg]))

/-- C6: as_pages on a WAL of a header followed by frames yields a page map with
one entry per page number appearing in the frames, holding the payload of the
last frame carrying that page number; page numbers absent from the frames are
absent from the map. -/
theorem claim_C6 (hdr : List Nat) (frames : List (Nat × Page))
    (hhdr : hdr.length = HEADER_SIZE) (hfr : ∀ f ∈ frames, f.1 < 2 ^ 32) :
    ∃ m, (mkWal hdr frames).as_pages = some m ∧
      m.keys.Nodup ∧
      ∀ j, m.lookup j =
        (match frames.reverse.find? (fun f => f.1 == j) with
          | some f => some f.2
          | none => none) := by
  refine ⟨pagesOfList frames SparsePages.empty, ?_, ?_, ?_⟩
  · show SqliteWal.as_pages ⟨hdr ++ (frames.map encodeFrame).flatten⟩ = _
    unfold SqliteWal.as_pages
    have hlen : ¬((hdr ++ (frames.map encodeFrame).flatten).length < HEADER_SIZE) := by
      rw [List.length_append, hhdr]
      omega
    rw [if_neg hlen]
    show parseFrames ((hdr ++ (frames.map encodeFrame).flatten).drop HEADER_SIZE) _ = _
    rw [List.drop_left' hhdr]
    exact parseFrames_encode frames SparsePages.empty hfr
  · exact pagesOfList_keys_nodup frames _ (by simp [SparsePages.keys, SparsePages.empty])
  · intro j
    rw [pagesOfList_lookup]
    cases frames.reverse.find? (fun f => f.1 == j) <;> rfl

/-- Witness for C6: a WAL holding frames for pages 3, 1, 3 in that order. -/
theorem claim_C6_witness :
    (List.replicate 32 0).length = HEADER_SIZE ∧
    (∀ f ∈ ([(3, pageOf 10), (1, pageOf 11), (3, pageOf 12)] : List (Nat × Page)),
      f.1 < 2 ^ 32) ∧
    ∃ m, (mkWal (List.replicate 32 0)
        [(3, pageOf 10), (1, pageOf 11), (3, pageOf 12)]).as_pages = some m ∧
      m.keys.Nodup ∧
      ∀ j, m.lookup j =
        (match ([(3, pageOf 10), (1, pageOf 11), (3, pageOf 12)] :
            List (Nat × Page)).reverse.find? (fun f => f.1 == j) with
          | some f => some f.2
          | none => none) :=
  ⟨by decide, by decide,
    claim_C6 (List.replicate 32 0) [(3, pageOf 10), (1, pageOf 11), (3, pageOf 12)]
      (by decide) (by decide)⟩

/-- Counterexample to C2 as stated: with one pending page and a failing journal
append, commit propagates the error but the pending page map does not still
hold the same pages — it has been emptied (its pages were taken before the
append was attempted). -/
theorem claim_C2_counterexample :
    (c2_state.commit true).2 = true ∧
    (c2_state.commit true).1.journal = c2_state.journal ∧
    (c2_state.commit true).1.pending ≠ c2_state.pending ∧
    (c2_state.commit true).1.pending = SparsePages.empty :=
  ⟨rfl, rfl, by decide, rfl⟩

/-- C2 (amended): commit() with empty pending is a no-op; on success the whole
pending set becomes exactly one new journal entry and the visible range is
refreshed; on journal append error the error is propagated and the journal,
visible range and change counter are unchanged, but the pending map has been
emptied (it was taken before the append), so a retried commit is a no-op. -/
theorem claim_C2 (s : Storage) (err : Bool) :
    (s.pending.num_pages = 0 → s.commit err = (s, false)) ∧
    (0 < s.pending.num_pages → err = true →
      s.commit err = ({ s with pending := SparsePages.empty }, true) ∧
      ∀ err2, ({ s with pending := SparsePages.empty } : Storage).commit err2 =
        ({ s with pending := SparsePages.empty }, false)) ∧
    (0 < s.pending.num_pages → err = false →
      s.commit err = ({ s with
        pending := SparsePages.empty
        journal := s.journal.append s.pending
        visible_lsn_range := (s.journal.append s.pending).range }, false) ∧
      (s.journal.append s.pending).entries = s.journal.entries ++ [s.pending]) := by
  refine ⟨fun h0 => commit_empty s err h0, fun hp he => ?_, fun hp he => ?_⟩
  · subst he
    exact ⟨commit_err s hp, fun err2 => commit_empty _ err2 rfl⟩
  · subst he
    exact ⟨commit_ok s hp, rfl⟩

/-- Witness for C2 at a storage with one pending page and at an empty one. -/
theorem claim_C2_witness :
    (0 < c2_state.pending.num_pages ∧
      c2_state.commit true = ({ c2_state with pending := SparsePages.empty }, true) ∧
      ∀ err2, ({ c2_state with pending := SparsePages.empty } : Storage).commit err2 =
        ({ c2_state with pending := SparsePages.empty }, false)) ∧
    ((Storage.new ⟨[]⟩).pending.num_pages = 0 ∧
      (Storage.new ⟨[]⟩).commit false = (Storage.new ⟨[]⟩, false)) :=
  ⟨⟨by decide, (claim_C2 c2_state true).2.1 (by decide) rfl⟩,
    ⟨rfl, (claim_C2 (Storage.new ⟨[]⟩) false).1 rfl⟩⟩

/-- C9: revert() discards pending unconditionally, refreshes the cached visible
range from the journal and changes nothing else — no journal entry is created;
called after pending writes on a clean storage (empty pending, visible range in
sync with the journal) it restores the state, so subsequent reads return
exactly what they returned before the writes. -/
theorem claim_C9 (s : Storage) (ws : List (Nat × Page)) :
    (s.revert.pending = SparsePages.empty ∧
      s.revert.visible_lsn_range = s.journal.range ∧
      s.revert.journal = s.journal ∧
      s.revert.file_change_counter = s.file_change_counter) ∧
    (applyWrites s ws).revert.journal = s.journal ∧
    (s.pending = SparsePages.empty → s.visible_lsn_range = s.journal.range →
      (applyWrites s ws).revert = s ∧
      ∀ pos buf, (applyWrites s ws).revert.read pos buf = s.read pos buf) := by
  refine ⟨⟨rfl, rfl, rfl, rfl⟩, ?_, fun h1 h2 => ?_⟩
  · rw [applyWrites_eq]
    rfl
  · have h3 : (applyWrites s ws).revert = s := by
      rw [applyWrites_eq]
      unfold Storage.revert
      rcases s with ⟨j, v, p, c⟩
      simp_all
    exact ⟨h3, fun pos buf => by rw [h3]⟩

/-- Witness for C9: a write to page 1 on a fresh storage, then revert. -/
theorem claim_C9_witness :
    ((Storage.new ⟨[]⟩).pending = SparsePages.empty ∧
      (Storage.new ⟨[]⟩).visible_lsn_range = (Storage.new ⟨[]⟩).journal.range) ∧
    (applyWrites (Storage.new ⟨[]⟩) [(1, pageOf 9)]).revert = Storage.new ⟨[]⟩ ∧
    ∀ pos buf, (applyWrites (Storage.new ⟨[]⟩) [(1, pageOf 9)]).revert.read pos buf =
      (Storage.new ⟨[]⟩).read pos buf :=
  ⟨⟨rfl, rfl⟩, (claim_C9 (Storage.new ⟨[]⟩) [(1, pageOf 9)]).2.2 rfl rfl⟩

/-! Normal forms of the C4 scenario states, computed through the commit and
revert lemmas so that no page payload is ever evaluated. -/

theorem c4_committed_eq : c4_committed =
    { journal := ⟨[SparsePages.empty.write 5 (pageOf 5)]⟩
      visible_lsn_range := LsnRange.nonempty 0 0
      pending := SparsePages.empty
      file_change_counter := 0 } := by
  unfold c4_committed
  rw [write_step (Storage.new ⟨[]⟩) 5 (pageOf 5)]
  show (({ Storage.new ⟨[]⟩ with
      pending := (Storage.new ⟨[]⟩).pending.write 5 (pageOf 5) } : Storage).commit false).1 = _
  rw [commit_ok _ (by decide)]
  rfl

theorem c4_pending10_eq : c4_pending10 =
    { journal := ⟨[SparsePages.empty.write 5 (pageOf 5)]⟩
      visible_lsn_range := LsnRange.nonempty 0 0
      pending := SparsePages.empty.write 10 (pageOf 10)
      file_change_counter := 0 } := by
  unfold c4_pending10
  rw [c4_committed_eq, write_step _ 10 (pageOf 10)]
  rfl

theorem c4_reverted_eq : c4_reverted =
    { journal := ⟨[SparsePages.empty.write 5 (pageOf 5)]⟩
      visible_lsn_range := LsnRange.nonempty 0 0
      pending := SparsePages.empty
      file_change_counter := 0 } := by
  unfold c4_reverted
  rw [c4_pending10_eq]
  rfl

/-- C4: file_size() is (max(pending max page index, max page index over every
visible journal entry) + 1) * PAGESIZE, or 0 when neither holds any page; in
the concrete scenario, after committing a write to page 5, file_size is
6 * 4096, it grows to 11 * 4096 with page 10 pending, and reverting the
pending write of page 10 brings it back to 6 * 4096. -/
theorem claim_C4 :
    (∀ s : Storage, s.file_size =
      match optMax s.pending.max_page_idx (visible_max s) with
      | none => 0
      | some m => (m + 1) * PAGESIZE) ∧
    c4_committed.file_size = 6 * 4096 ∧
    c4_pending10.file_size = 11 * 4096 ∧
    c4_reverted.file_size = 6 * 4096 := by
  refine ⟨fun s => ?_, ?_, ?_, ?_⟩
  · simp only [Storage.file_size, visible_max]
    rw [foldl_optMax_eq]
  · rw [c4_committed_eq]; decide
  · rw [c4_pending10_eq]; decide
  · rw [c4_reverted_eq]; decide

/-- C3: a Storage read resolves the page by checking the pending map first and
then the visible journal entries from newest to oldest; if no source holds the
page the read returns 0 and leaves the buffer and state unchanged, otherwise
the returned bytes are those of the resolved page version (then subjected to
the page-0 change-counter defense). -/
theorem claim_C3 (s : Storage) (pos : Nat) (buf : List Nat)
    (hlen : 1 ≤ buf.length) (hfit : pos % PAGESIZE + buf.length ≤ PAGESIZE) :
    (resolve_page s (pos / PAGESIZE) = none → s.read pos buf = some (0, buf, s)) ∧
    (∀ p, resolve_page s (pos / PAGESIZE) = some p →
      s.read pos buf = some (buf.length,
        apply_counter s (pos / PAGESIZE) (pos % PAGESIZE) buf.length
          (writeRange buf 0 ((p.val.drop (pos % PAGESIZE)).take buf.length)))) :=
  ⟨fun h => read_unresolved s pos buf h,
    fun p hp => read_resolved s pos buf p hp hlen hfit⟩

theorem replicate_page_length : (List.replicate PAGESIZE 0).length = PAGESIZE :=
  List.length_replicate _ _

/-- Witness for C3: a full-page read of pending page 0. -/
theorem claim_C3_witness :
    (1 ≤ (List.replicate PAGESIZE 0).length ∧
      0 % PAGESIZE + (List.replicate PAGESIZE 0).length ≤ PAGESIZE) ∧
    (resolve_page c2_state (0 / PAGESIZE) = none →
      c2_state.read 0 (List.replicate PAGESIZE 0) =
        some (0, List.replicate PAGESIZE 0, c2_state)) ∧
    (∀ p, resolve_page c2_state (0 / PAGESIZE) = some p →
      c2_state.read 0 (List.replicate PAGESIZE 0) =
        some ((List.replicate PAGESIZE 0).length,
          apply_counter c2_state (0 / PAGESIZE) (0 % PAGESIZE)
            (List.replicate PAGESIZE 0).length
            (writeRange (List.replicate PAGESIZE 0) 0
              ((p.val.drop (0 % PAGESIZE)).take (List.replicate PAGESIZE 0).length)))) :=
  ⟨⟨by rw [replicate_page_length]; norm_num [PAGESIZE],
      by rw [replicate_page_length, Nat.zero_mod]; omega⟩,
    claim_C3 c2_state 0 (List.replicate PAGESIZE 0)
      (by rw [replicate_page_length]; norm_num [PAGESIZE])
      (by rw [replicate_page_length, Nat.zero_mod]; omega)⟩

/-! Helper lemmas for zero-length reads, used by C10. -/

theorem sparse_read_nil (ps : SparsePages) (idx off : Nat) :
    ps.read idx off [] = (0, []) := by
  cases h : ps.lookup idx <;> simp [SparsePages.read, h, writeRange]

theorem scan_rev_nil (es : List SparsePages) (idx off : Nat) :
    scan_rev es idx off [] = (0, []) := by
  induction es with
  | nil => rfl
  | cons e rest ih =>
    unfold scan_rev
    rw [sparse_read_nil]
    simpa using ih

theorem read_nil (s : Storage) (pos : Nat) : s.read pos [] = some (0, [], s) := by
  simp only [Storage.read]
  rw [sparse_read_nil, scan_rev_nil]
  simp

set_option maxRecDepth 4000 in
/-- C10: under page-aligned reads (the in-page offset plus the buffer length
never exceeds PAGESIZE) every read succeeds and returns either 0 or exactly the
buffer length — the internal fill assertion is unreachable — and whenever some
source holds the requested page the whole buffer is filled; a read that hits a
page but extends past the page end violates the assertion (modelled as none). -/
theorem claim_C10 :
    (∀ (s : Storage) (pos : Nat) (buf : List Nat),
      pos % PAGESIZE + buf.length ≤ PAGESIZE →
      ∃ r, s.read pos buf = some r ∧ (r.1 = 0 ∨ r.1 = buf.length) ∧
        (resolve_page s (pos / PAGESIZE) ≠ none → r.1 = buf.length)) ∧
    c2_state.read 4000 (List.replicate 200 0) = none := by
  constructor
  · intro s pos buf hfit
    cases hres : resolve_page s (pos / PAGESIZE) with
    | none =>
      exact ⟨(0, buf, s), read_unresolved s pos buf hres, Or.inl rfl,
        fun hne => absurd rfl hne⟩
    | some p =>
      by_cases hb : buf.length = 0
      · have hnil : buf = [] := List.length_eq_zero.mp hb
        subst hnil
        exact ⟨(0, [], s), read_nil s pos, Or.inl rfl, fun _ => rfl⟩
      · have hlen : 1 ≤ buf.length := by omega
        exact ⟨(buf.length, _), read_resolved s pos buf p hres hlen hfit,
          Or.inr rfl, fun _ => rfl⟩
  · decide

/-- Witness for C10: a full-page read of pending page 0. -/
theorem claim_C10_witness :
    (0 % PAGESIZE + (List.replicate PAGESIZE 0).length ≤ PAGESIZE) ∧
    ∃ r, c2_state.read 0 (List.replicate PAGESIZE 0) = some r ∧
      (r.1 = 0 ∨ r.1 = (List.replicate PAGESIZE 0).length) ∧
      (resolve_page c2_state (0 / PAGESIZE) ≠ none →
        r.1 = (List.replicate PAGESIZE 0).length) :=
  ⟨by rw [replicate_page_length, Nat.zero_mod]; omega,
    claim_C10.1 c2_state 0 (List.replicate PAGESIZE 0)
      (by rw [replicate_page_length, Nat.zero_mod]; omega)⟩

/-- C8: when a read of page 0 covers the 4-byte file change counter field at
offset 24 and some source holds page 0, the stored counter is bit-flipped and
its big-endian bytes are written into the returned buffer at the matching
offset; two consecutive such reads therefore return different counter bytes
even with no intervening write. -/
theorem claim_C8 (s : Storage) (pos : Nat) (buf : List Nat) (p : Page)
    (hres : resolve_page s (pos / PAGESIZE) = some p)
    (hidx : pos / PAGESIZE = 0)
    (hlo : pos % PAGESIZE ≤ FILE_CHANGE_COUNTER_OFFSET)
    (hhi : FILE_CHANGE_COUNTER_OFFSET + 4 ≤ pos % PAGESIZE + buf.length)
    (hfit : pos % PAGESIZE + buf.length ≤ PAGESIZE) :
    ∃ b1 s1 b2 s2,
      s.read pos buf = some (buf.length, b1, s1) ∧
      s1.read pos buf = some (buf.length, b2, s2) ∧
      s1.file_change_counter = s.file_change_counter ^^^ 1 ∧
      (b1.drop (FILE_CHANGE_COUNTER_OFFSET - pos % PAGESIZE)).take 4 =
        be32bytes (s.file_change_counter ^^^ 1) ∧
      (b2.drop (FILE_CHANGE_COUNTER_OFFSET - pos % PAGESIZE)).take 4 =
        be32bytes s.file_change_counter ∧
      (b1.drop (FILE_CHANGE_COUNTER_OFFSET - pos % PAGESIZE)).take 4 ≠
        (b2.drop (FILE_CHANGE_COUNTER_OFFSET - pos % PAGESIZE)).take 4 := by
  have hlen1 : 1 ≤ buf.length := by omega
  have hsl : ((p.val.drop (pos % PAGESIZE)).take buf.length).length = buf.length := by
    simp only [List.length_take, List.length_drop, p.property]
    omega
  have hbaselen :
      (writeRange buf 0 ((p.val.drop (pos % PAGESIZE)).take buf.length)).length
        = buf.length :=
    writeRange_length _ _ 0 (by omega)
  have hcond : pos / PAGESIZE = 0 ∧ pos % PAGESIZE ≤ FILE_CHANGE_COUNTER_OFFSET ∧
      FILE_CHANGE_COUNTER_OFFSET + 4 ≤ pos % PAGESIZE + buf.length := ⟨hidx, hlo, hhi⟩
  have hfo4 : (FILE_CHANGE_COUNTER_OFFSET - pos % PAGESIZE) + (be32bytes
      (s.file_change_counter ^^^ 1)).length ≤
      (writeRange buf 0 ((p.val.drop (pos % PAGESIZE)).take buf.length)).length := by
    rw [be32bytes_length, hbaselen]
    omega
  have hfo4b : (FILE_CHANGE_COUNTER_OFFSET - pos % PAGESIZE) + (be32bytes
      s.file_change_counter).length ≤
      (writeRange buf 0 ((p.val.drop (pos % PAGESIZE)).take buf.length)).length := by
    rw [be32bytes_length, hbaselen]
    omega
  have hread1 := read_resolved s pos buf p hres hlen1 hfit
  have hac1 : apply_counter s (pos / PAGESIZE) (pos % PAGESIZE) buf.length
      (writeRange buf 0 ((p.val.drop (pos % PAGESIZE)).take buf.length)) =
      (writeRange (writeRange buf 0 ((p.val.drop (pos % PAGESIZE)).take buf.length))
          (FILE_CHANGE_COUNTER_OFFSET - pos % PAGESIZE)
          (be32bytes (s.file_change_counter ^^^ 1)),
        { s with file_change_counter := s.file_change_counter ^^^ 1 }) := by
    unfold apply_counter
    rw [if_pos hcond]
  rw [hac1] at hread1
  have hres2 : resolve_page { s with
      file_change_counter := s.file_change_counter ^^^ 1 } (pos / PAGESIZE) = some p := hres
  have hread2 := read_resolved { s with
    file_change_counter := s.file_change_counter ^^^ 1 } pos buf p hres2 hlen1 hfit
  have hac2 : apply_counter { s with file_change_counter := s.file_change_counter ^^^ 1 }
      (pos / PAGESIZE) (pos % PAGESIZE) buf.length
      (writeRange buf 0 ((p.val.drop (pos % PAGESIZE)).take buf.length)) =
      (writeRange (writeRange buf 0 ((p.val.drop (pos % PAGESIZE)).take buf.length))
          (FILE_CHANGE_COUNTER_OFFSET - pos % PAGESIZE)
          (be32bytes s.file_change_counter),
        { s with file_change_counter := s.file_change_counter }) := by
    unfold apply_counter
    rw [if_pos hcond]
    rw [xor_one_twice]
  rw [hac2] at hread2
  refine ⟨_, _, _, _, hread1, hread2, rfl, ?_, ?_, ?_⟩
  · rw [← be32bytes_length (s.file_change_counter ^^^ 1)]
    exact writeRange_slice _ _ _ hfo4
  · rw [← be32bytes_length s.file_change_counter]
    exact writeRange_slice _ _ _ hfo4b
  · rw [← be32bytes_length (s.file_change_counter ^^^ 1)]
    rw [writeRange_slice _ _ _ hfo4]
    rw [show (be32bytes (s.file_change_counter ^^^ 1)).length
      = (be32bytes s.file_change_counter).length from rfl]
    rw [writeRange_slice _ _ _ hfo4b]
    exact be32bytes_ne_xor_one s.file_change_counter

/-- Witness for C8: a full-page read of pending page 0 at counter 0. -/
theorem claim_C8_witness :
    (resolve_page c2_state (0 / PAGESIZE) = some (pageOf 0) ∧
      0 / PAGESIZE = 0 ∧
      0 % PAGESIZE ≤ FILE_CHANGE_COUNTER_OFFSET ∧
      FILE_CHANGE_COUNTER_OFFSET + 4 ≤ 0 % PAGESIZE + (List.replicate PAGESIZE 0).length ∧
      0 % PAGESIZE + (List.replicate PAGESIZE 0).length ≤ PAGESIZE) ∧
    ∃ b1 s1 b2 s2,
      c2_state.read 0 (List.replicate PAGESIZE 0) =
        some ((List.replicate PAGESIZE 0).length, b1, s1) ∧
      s1.read 0 (List.replicate PAGESIZE 0) =
        some ((List.replicate PAGESIZE 0).length, b2, s2) ∧
      s1.file_change_counter = c2_state.file_change_counter ^^^ 1 ∧
      (b1.drop (FILE_CHANGE_COUNTER_OFFSET - 0 % PAGESIZE)).take 4 =
        be32bytes (c2_state.file_change_counter ^^^ 1) ∧
      (b2.drop (FILE_CHANGE_COUNTER_OFFSET - 0 % PAGESIZE)).take 4 =
        be32bytes c2_state.file_change_counter ∧
      (b1.drop (FILE_CHANGE_COUNTER_OFFSET - 0 % PAGESIZE)).take 4 ≠
        (b2.drop (FILE_CHANGE_COUNTER_OFFSET - 0 % PAGESIZE)).take 4 :=
  ⟨⟨rfl, rfl, by decide,
      by rw [replicate_page_length, Nat.zero_mod]; norm_num [FILE_CHANGE_COUNTER_OFFSET, PAGESIZE],
      by rw [replicate_page_length, Nat.zero_mod]; omega⟩,
    claim_C8 c2_state 0 (List.replicate PAGESIZE 0) (pageOf 0) rfl rfl (by decide)
      (by rw [replicate_page_length, Nat.zero_mod]; norm_num [FILE_CHANGE_COUNTER_OFFSET, PAGESIZE])
      (by rw [replicate_page_length, Nat.zero_mod]; omega)⟩

/-! Helper lemmas for C1: the committed-state normal form, resolution against
a freshly committed entry, and the counter defense in closed form. -/

theorem c1_state_eq : c1_state =
    { journal := ⟨[SparsePages.empty.write 0 (pageOf 0)]⟩
      visible_lsn_range := LsnRange.nonempty 0 0
      pending := SparsePages.empty
      file_change_counter := 0 } := by
  unfold c1_state
  show (((((Storage.new ⟨[]⟩).write (0 * PAGESIZE) (pageOf 0).val).map
    Prod.fst).getD (Storage.new ⟨[]⟩)).commit false).1 = _
  rw [write_step (Storage.new ⟨[]⟩) 0 (pageOf 0)]
  show (({ Storage.new ⟨[]⟩ with
      pending := (Storage.new ⟨[]⟩).pending.write 0 (pageOf 0) } : Storage).commit false).1 = _
  rw [commit_ok _ (by decide)]
  rfl

theorem resolve_committed (l : List SparsePages) (P : SparsePages) (c idx : Nat)
    (p : Page) (h : P.lookup idx = some p) :
    resolve_page
      { journal := ⟨l ++ [P]⟩
        visible_lsn_range := LsnRange.nonempty 0 l.length
        pending := SparsePages.empty
        file_change_counter := c } idx = some p := by
  unfold resolve_page
  simp only [lookup_empty]
  have hscan : MemJournal.scan_range ⟨l ++ [P]⟩ (LsnRange.nonempty 0 l.length)
      = l ++ [P] := by
    rw [← range_append]
    exact scan_range_range _
  rw [hscan, List.reverse_append]
  show find_rev_hit (P :: l.reverse) idx = some p
  unfold find_rev_hit
  simp only [h]

theorem apply_counter_zero (s : Storage) (bl : Nat) (b : List Nat)
    (hbl : FILE_CHANGE_COUNTER_OFFSET + 4 ≤ bl) :
    apply_counter s 0 0 bl b =
      (writeRange b FILE_CHANGE_COUNTER_OFFSET
        (be32bytes (s.file_change_counter ^^^ 1)),
        { s with file_change_counter := s.file_change_counter ^^^ 1 }) := by
  unfold apply_counter
  rw [if_pos ⟨rfl, by norm_num, by omega⟩, Nat.sub_zero]

theorem apply_counter_nonzero (s : Storage) (idx off bl : Nat) (b : List Nat)
    (h : idx ≠ 0) : apply_counter s idx off bl b = (b, s) := by
  unfold apply_counter
  rw [if_neg (fun hc => h hc.1)]

theorem getD_writeRange_counter (base src : List Nat) (h4 : src.length = 4)
    (hlen : FILE_CHANGE_COUNTER_OFFSET + 4 ≤ base.length) :
    (writeRange base FILE_CHANGE_COUNTER_OFFSET src).getD 27 0 = src.getD 3 0 := by
  unfold writeRange
  rw [List.append_assoc]
  have h24 : (base.take FILE_CHANGE_COUNTER_OFFSET).length
      = FILE_CHANGE_COUNTER_OFFSET := by
    rw [List.length_take]
    have he : FILE_CHANGE_COUNTER_OFFSET = 24 := rfl
    omega
  rw [List.getD_append_right _ _ _ _
    (by rw [h24]; norm_num [FILE_CHANGE_COUNTER_OFFSET])]
  rw [h24]
  have h3 : (27 : Nat) - FILE_CHANGE_COUNTER_OFFSET = 3 := rfl
  rw [h3]
  rw [List.getD_append _ _ _ _ (by rw [h4]; norm_num)]

/-- Counterexample to C1 as stated: after writing an all-zero page 0 and
committing, a full-page read of page 0 does not return exactly the written
bytes — byte 27 of the returned buffer is 1 (the flipped change counter's low
byte) although byte 27 of the page last written is 0. -/
theorem claim_C1_counterexample :
    (c1_state.read 0 (List.replicate PAGESIZE 0)).map (fun r => r.2.1.getD 27 0)
      = some 1 ∧
    (pageOf 0).val.getD 27 0 = 0 := by
  constructor
  · rw [c1_state_eq]
    have hlook : (SparsePages.empty.write 0 (pageOf 0)).lookup 0 = some (pageOf 0) := by
      rw [lookup_write]
      simp
    have hres : resolve_page
        { journal := ⟨[SparsePages.empty.write 0 (pageOf 0)]⟩
          visible_lsn_range := LsnRange.nonempty 0 0
          pending := SparsePages.empty
          file_change_counter := 0 } (0 / PAGESIZE) = some (pageOf 0) :=
      resolve_committed [] (SparsePages.empty.write 0 (pageOf 0)) 0 0 (pageOf 0) hlook
    have hlen : 1 ≤ (List.replicate PAGESIZE 0).length := by
      rw [replicate_page_length]
      norm_num [PAGESIZE]
    have hfit : 0 % PAGESIZE + (List.replicate PAGESIZE 0).length ≤ PAGESIZE := by
      rw [replicate_page_length, Nat.zero_mod]
      omega
    have hread := read_resolved _ 0 (List.replicate PAGESIZE 0) (pageOf 0) hres hlen hfit
    rw [Nat.zero_mod, List.drop_zero, replicate_page_length] at hread
    have htake : (pageOf 0).val.take PAGESIZE = (pageOf 0).val :=
      List.take_of_length_le (le_of_eq (pageOf 0).property)
    rw [htake, writeRange_zero_full _ _ (by rw [(pageOf 0).property, replicate_page_length])]
      at hread
    rw [show (0 : Nat) / PAGESIZE = 0 from rfl] at hread
    have hbl : FILE_CHANGE_COUNTER_OFFSET + 4 ≤ PAGESIZE := by
      norm_num [FILE_CHANGE_COUNTER_OFFSET, PAGESIZE]
    rw [apply_counter_zero _ _ _ hbl] at hread
    rw [hread, Option.map_some']
    rw [getD_writeRange_counter _ _ (be32bytes_length _)
      (by rw [(pageOf 0).property]; norm_num [FILE_CHANGE_COUNTER_OFFSET, PAGESIZE])]
    rfl
  · rfl

/-- C1 (amended): a Storage read changes nothing but the file change counter,
so after a sequence of whole-page writes and a successful commit, a whole-page
read of any written page — regardless of intervening reads, modelled by an
arbitrary counter value — returns exactly the PAGESIZE bytes last written to
that page, except that for page 0 the 4 bytes at the change-counter offset are
replaced by the flipped counter. -/
theorem claim_C1 :
    (∀ (s : Storage) (pos : Nat) (buf : List Nat) (r : Nat × List Nat × Storage),
      s.read pos buf = some r →
      r.2.2.journal = s.journal ∧ r.2.2.visible_lsn_range = s.visible_lsn_range ∧
        r.2.2.pending = s.pending) ∧
    (∀ (s : Storage) (ws : List (Nat × Page)) (idx : Nat) (p : Page) (c : Nat)
      (buf : List Nat), buf.length = PAGESIZE →
      (ws.reverse.find? (fun f => f.1 == idx)).map Prod.snd = some p →
      ∃ s3, Storage.read
          { ((applyWrites s ws).commit false).1 with file_change_counter := c }
          (idx * PAGESIZE) buf =
        some (buf.length,
          (if idx = 0 then
            writeRange p.val FILE_CHANGE_COUNTER_OFFSET (be32bytes (c ^^^ 1))
          else p.val), s3)) := by
  constructor
  · intro s pos buf r h
    exact read_frame s pos buf r.1 r.2.1 r.2.2 h
  · intro s ws idx p c buf hbuf hlast
    have hlookup : (pagesOfList ws s.pending).lookup idx = some p := by
      rw [pagesOfList_lookup]
      cases hf : ws.reverse.find? (fun f => f.1 == idx) with
      | none => rw [hf] at hlast; simp at hlast
      | some g =>
        rw [hf] at hlast
        simp only [Option.map_some'] at hlast
        simp [hlast]
    have hpos : 0 < (pagesOfList ws s.pending).num_pages :=
      num_pages_pos_of_lookup _ idx p hlookup
    have hT : ({ ((applyWrites s ws).commit false).1 with
        file_change_counter := c } : Storage)
        = { journal := ⟨s.journal.entries ++ [pagesOfList ws s.pending]⟩,
            visible_lsn_range := LsnRange.nonempty 0 s.journal.entries.length,
            pending := SparsePages.empty,
            file_change_counter := c } := by
      rw [applyWrites_eq]
      rw [commit_ok _ hpos]
      have hA : ({ s with pending := pagesOfList ws s.pending } : Storage).journal.append
          ({ s with pending := pagesOfList ws s.pending } : Storage).pending
          = MemJournal.mk (s.journal.entries ++ [pagesOfList ws s.pending]) := rfl
      rw [hA, range_append]
    rw [hT]
    have hdiv : idx * PAGESIZE / PAGESIZE = idx :=
      Nat.mul_div_cancel idx (by norm_num [PAGESIZE])
    have hmod : idx * PAGESIZE % PAGESIZE = 0 := Nat.mul_mod_left idx PAGESIZE
    have hres2 := resolve_committed s.journal.entries (pagesOfList ws s.pending)
      c idx p hlookup
    have hlen1 : 1 ≤ buf.length := by rw [hbuf]; norm_num [PAGESIZE]
    have hfit1 : idx * PAGESIZE % PAGESIZE + buf.length ≤ PAGESIZE := by
      rw [hmod, hbuf]
      omega
    have hread := read_resolved _ (idx * PAGESIZE) buf p
      (by rw [hdiv]; exact hres2) hlen1 hfit1
    rw [hdiv, hmod, List.drop_zero] at hread
    have htake : p.val.take buf.length = p.val := by
      rw [hbuf]
      exact List.take_of_length_le (le_of_eq p.property)
    rw [htake, writeRange_zero_full buf p.val (by rw [p.property, hbuf])] at hread
    by_cases hi : idx = 0
    · subst hi
      have hbl : FILE_CHANGE_COUNTER_OFFSET + 4 ≤ buf.length := by
        rw [hbuf]
        norm_num [FILE_CHANGE_COUNTER_OFFSET, PAGESIZE]
      rw [apply_counter_zero _ _ _ hbl] at hread
      exact ⟨_, by rw [hread, if_pos rfl]⟩
    · rw [apply_counter_nonzero _ _ _ _ _ hi] at hread
      exact ⟨_, by rw [hread, if_neg hi]⟩

/-- Witness for C1: writing page 1 on a fresh storage, committing, and then
reading back page 1 in full. -/
theorem claim_C1_witness :
    ((List.replicate PAGESIZE 0).length = PAGESIZE ∧
      (([(1, pageOf 9)] : List (Nat × Page)).reverse.find?
        (fun f => f.1 == 1)).map Prod.snd = some (pageOf 9)) ∧
    ∃ s3, Storage.read
        { ((applyWrites (Storage.new ⟨[]⟩) [(1, pageOf 9)]).commit false).1 with
          file_change_counter := 0 }
        (1 * PAGESIZE) (List.replicate PAGESIZE 0) =
      some ((List.replicate PAGESIZE 0).length,
        (if (1 : Nat) = 0 then
          writeRange (pageOf 9).val FILE_CHANGE_COUNTER_OFFSET (be32bytes (0 ^^^ 1))
        else (pageOf 9).val), s3) :=
  ⟨⟨replicate_page_length, rfl⟩,
    claim_C1.2 (Storage.new ⟨[]⟩) [(1, pageOf 9)] 1 (pageOf 9) 0
      (List.replicate PAGESIZE 0) replicate_page_length rfl⟩

end SqlSync
